import Mathlib

/-!
Verification of the journal-log storage contract of
`src/optuna/storages/_journal/base.py`.

The repository ships the abstract interface (`BaseJournalLogStorage`,
`SnapshotRestoreError`, `BaseJournalLogSnapshot`); the concrete log,
lock and snapshot backends are not part of the sources, so their
behaviour is modelled from the specification (each such definition is
marked `Modelled from the spec:`).  The abstract base classes
themselves are embedded directly from the source file.
-/

namespace OptunaJournal

/-- Python exceptions that appear in `base.py`: `NotImplementedError`
raised by every abstract method body, and `SnapshotRestoreError`
declared as `class SnapshotRestoreError(Exception)`. -/
inductive PyError where
  | notImplementedError
  | snapshotRestoreError
deriving DecidableEq, Repr

/-- A snapshot blob: `bytes` in the source, modelled as a list of byte
values. -/
abbrev Bytes := List Nat

namespace BaseJournalLogStorage

/-- Embedded from `base.py` lines 20-33: the abstract method
`read_logs` whose body is `raise NotImplementedError`.  The record
type `Dict[str, Any]` is abstracted as a type parameter `α`. -/
def read_logs (α : Type) (log_number_from : Int) : Except PyError (List α) :=
  .error .notImplementedError

/-- Embedded from `base.py` lines 36-44: the abstract method
`append_logs` whose body is `raise NotImplementedError`. -/
def append_logs (α : Type) (logs : List α) : Except PyError Unit :=
  .error .notImplementedError

end BaseJournalLogStorage

/-- Embedded from `base.py` lines 53-65: `BaseJournalLogSnapshot.__init__`
stores its single argument as the attribute `snapshot_interval`; the
source performs no validation.  Python integers are modelled as `Int`. -/
structure BaseJournalLogSnapshot where
  snapshot_interval : Int
deriving DecidableEq, Repr

namespace BaseJournalLogSnapshot

/-- Embedded from `base.py` lines 68-74: the abstract method
`save_snapshot` whose body is `raise NotImplementedError`. -/
def save_snapshot (self : BaseJournalLogSnapshot) (snapshot : Bytes) :
    Except PyError Unit :=
  .error .notImplementedError

/-- Embedded from `base.py` lines 77-88: the abstract method
`load_snapshot` whose body is `raise NotImplementedError`. -/
def load_snapshot (self : BaseJournalLogSnapshot) (σ : Type)
    (loader : Bytes → Except PyError σ) : Except PyError Unit :=
  .error .notImplementedError

end BaseJournalLogSnapshot

/-! ### The journal log store, modelled from the spec

`BaseJournalLogStorage` only declares the contract; the concrete
storages are not under the sources, so the durable log state and the
serialized semantics of `read_logs` / `append_logs` are modelled from
the specification (spec §3, §4.1). -/

/-- Modelled from the spec: the durable state of a Journal Log Store is
the full ordered sequence of log records; a record's log number is its
0-based position in this sequence (spec §3, "Log Record", "Log
Number"). -/
structure LogStore (α : Type) where
  records : List α
deriving DecidableEq, Repr

/-- Pair each record with its log number, numbering from `n`. -/
def numberFrom (n : Nat) : List α → List (Nat × α)
  | [] => []
  | a :: as => (n, a) :: numberFrom (n + 1) as

/-- Modelled from the spec: `read_logs(log_number_from)` returns every
record whose log number is greater than or equal to `log_number_from`,
paired with its log number, in ascending log-number order (spec §4.1). -/
def readLogs (log_number_from : Nat) (s : LogStore α) : List (Nat × α) :=
  (numberFrom 0 s.records).filter fun p => log_number_from ≤ p.1

/-- Modelled from the spec: `append_logs(logs)` durably appends the
whole batch at the end of the sequence, so the new records receive the
next consecutive log numbers in the given relative order (spec §4.1). -/
def appendLogs (s : LogStore α) (logs : List α) : LogStore α :=
  ⟨s.records ++ logs⟩

/-- Modelled from the spec: the store state after committing a
serialized sequence of append batches starting from the empty store.
The Lock Provider serializes concurrent `append_logs` calls, so every
interleaved execution is equivalent to some such sequence (spec §4.1,
§5). -/
def commit (bs : List (List α)) : LogStore α :=
  bs.foldl appendLogs ⟨[]⟩

/-- Modelled from the spec: the store states observable by any reader
during a run of committed batches — visibility is gated behind the
lock, so a reader sees the state strictly before or strictly after a
whole batch (spec §4.1, step (4)). -/
def observable (bs : List (List α)) : List (LogStore α) :=
  (List.range (bs.length + 1)).map fun k => commit (bs.take k)

/-- The log number of the first record of batch `i` in a run: the total
size of the preceding batches. -/
def batchStart (bs : List (List α)) (i : Nat) : Nat :=
  ((bs.take i).map List.length).sum

/-! ### The snapshot store, modelled from the spec

`BaseJournalLogSnapshot` only declares `save_snapshot` / `load_snapshot`;
the concrete snapshot backends are not under the sources, so the single
snapshot slot and the contract of spec §4.3 are modelled from the
specification. -/

/-- Modelled from the spec: the Snapshot Store owns a single
latest-snapshot slot, either absent or holding one fully written blob
(spec §3 "Snapshot", §4.3). -/
structure SnapshotStore where
  snapshot : Option Bytes
deriving DecidableEq, Repr

/-- Modelled from the spec: `save_snapshot(snapshot)` atomically
replaces the single stored snapshot blob (spec §4.3). -/
def saveSnapshot (st : SnapshotStore) (b : Bytes) : SnapshotStore :=
  ⟨some b⟩

/-- Modelled from the spec: the snapshot slot after a serialized
sequence of `save_snapshot` calls starting from the empty slot. -/
def snapshotRun (saves : List Bytes) : SnapshotStore :=
  saves.foldl saveSnapshot ⟨none⟩

/-- Modelled from the spec: the slot states a loader can observe during
a run of saves — each save is all-or-nothing, so the observable states
are exactly those before or after whole saves (spec §4.3, §6). -/
def observableSnapshots (saves : List Bytes) : List SnapshotStore :=
  (List.range (saves.length + 1)).map fun k => snapshotRun (saves.take k)

/-- Modelled from the spec: `load_snapshot(loader)`.  If a snapshot
exists the stored bytes are handed to `loader` exactly once; a
`SnapshotRestoreError` raised by the loader is absorbed as "no usable
snapshot" and never propagated (spec §4.3, §7).  The result is the
restored value (if any) together with the list of arguments the loader
was invoked with. -/
def loadSnapshot {σ : Type} (st : SnapshotStore)
    (loader : Bytes → Except PyError σ) : Option σ × List Bytes :=
  match st.snapshot with
  | none => (none, [])
  | some b =>
    match loader b with
    | .ok v => (some v, [b])
    | .error _ => (none, [b])

/-- Modelled from the spec: the State Reconstructor replays a batch of
numbered records in ascending order onto a state (spec §4.4). -/
def replay {σ α : Type} (apply : σ → α → σ) (s0 : σ) (l : List (Nat × α)) : σ :=
  l.foldl (fun st p => apply st p.2) s0

/-- Modelled from the spec: cold start of the State Reconstructor.  It
attempts `load_snapshot`; on a usable snapshot it replays only the tail
from the snapshot's self-declared as-of log number, otherwise it
replays the full history from log number 0 (spec §4.4). -/
def reconstruct {σ α : Type} (apply : σ → α → σ) (init : σ)
    (log : LogStore α) (snap : SnapshotStore)
    (loader : Bytes → Except PyError (σ × Nat)) : σ :=
  match (loadSnapshot snap loader).1 with
  | some (st, L) => replay apply st (readLogs L log)
  | none => replay apply init (readLogs 0 log)

/-! ### The Lock Provider, modelled from the spec

The source's docstring names the two lock strategies
(`JournalFileSymlinkLock`, `JournalFileOpenLock`) but their code is not
under the sources, so both strategies are modelled from spec §4.2 and
§5 as transition systems over the shared marker / control file plus the
set of live Lock Tokens. -/

/-- Whether the process recorded in a marker is still alive. -/
inductive Liveness where
  | alive
  | crashed
deriving DecidableEq, Repr

/-- Modelled from the spec: state of the marker-based (symlink-style)
lock strategy for one lock name — the shared marker with its recorded
owner and the owner's liveness, plus the processes currently holding a
live Lock Token (spec §4.2). -/
structure MarkerLockState where
  marker : Option (Nat × Liveness)
  tokens : List Nat
deriving DecidableEq, Repr

/-- Modelled from the spec: transitions of the marker-based strategy.
Acquisition succeeds only if the marker can be created exclusively;
release removes the marker; a crashed holder leaves a stale marker
behind, which a competing acquirer may forcibly reclaim (spec §4.2,
§5). -/
inductive MarkerStep : MarkerLockState → MarkerLockState → Prop where
  | acquire (p : Nat) (s : MarkerLockState) (h : s.marker = none) :
      MarkerStep s ⟨some (p, .alive), p :: s.tokens⟩
  | release (p : Nat) (s : MarkerLockState) (h : s.marker = some (p, .alive)) :
      MarkerStep s ⟨none, s.tokens.erase p⟩
  | crash (p : Nat) (s : MarkerLockState) (h : s.marker = some (p, .alive)) :
      MarkerStep s ⟨some (p, .crashed), s.tokens.erase p⟩
  | reclaim (q p : Nat) (s : MarkerLockState) (h : s.marker = some (p, .crashed)) :
      MarkerStep s ⟨some (q, .alive), q :: s.tokens⟩

/-- States reachable from the initial state (no marker, no tokens). -/
inductive MarkerReach : MarkerLockState → Prop where
  | init : MarkerReach ⟨none, []⟩
  | step {s t : MarkerLockState} : MarkerReach s → MarkerStep s t → MarkerReach t

/-- Finitely many marker-strategy transitions. -/
inductive MarkerSteps : MarkerLockState → MarkerLockState → Prop where
  | refl (s : MarkerLockState) : MarkerSteps s s
  | tail {s t u : MarkerLockState} : MarkerSteps s t → MarkerStep t u → MarkerSteps s u

/-- The live tokens a marker-lock state should carry: exactly the
marker's owner when the owner is alive. -/
def markerLive (s : MarkerLockState) : List Nat :=
  match s.marker with
  | some (p, .alive) => [p]
  | _ => []

/-- Modelled from the spec: state of the exclusive-open lock strategy
for one lock name — the exclusively opened control file (with the
holder's identity) plus the processes currently holding a live Lock
Token (spec §4.2). -/
structure OpenLockState where
  handle : Option Nat
  tokens : List Nat
deriving DecidableEq, Repr

/-- Modelled from the spec: transitions of the exclusive-open strategy.
Acquisition succeeds only if the control file can be opened in
exclusive-create mode; release closes/deletes it; when a holder dies
the backend closes the handle automatically, so a blocked acquirer can
simply retry (spec §4.2). -/
inductive OpenStep : OpenLockState → OpenLockState → Prop where
  | acquire (p : Nat) (s : OpenLockState) (h : s.handle = none) :
      OpenStep s ⟨some p, p :: s.tokens⟩
  | release (p : Nat) (s : OpenLockState) (h : s.handle = some p) :
      OpenStep s ⟨none, s.tokens.erase p⟩
  | crashClose (p : Nat) (s : OpenLockState) (h : s.handle = some p) :
      OpenStep s ⟨none, s.tokens.erase p⟩

/-- States reachable from the initial state (no handle, no tokens). -/
inductive OpenReach : OpenLockState → Prop where
  | init : OpenReach ⟨none, []⟩
  | step {s t : OpenLockState} : OpenReach s → OpenStep s t → OpenReach t

/-- Finitely many exclusive-open-strategy transitions. -/
inductive OpenSteps : OpenLockState → OpenLockState → Prop where
  | refl (s : OpenLockState) : OpenSteps s s
  | tail {s t u : OpenLockState} : OpenSteps s t → OpenStep t u → OpenSteps s u

/-- The live tokens an open-lock state should carry: exactly the
holder of the control file. -/
def openLive (s : OpenLockState) : List Nat :=
  match s.handle with
  | some p => [p]
  | none => []

/-! ### Basic lemmas about `numberFrom`, `commit` and `batchStart` -/

theorem numberFrom_append (n : Nat) (l l' : List α) :
    numberFrom n (l ++ l') = numberFrom n l ++ numberFrom (n + l.length) l' := by
  induction l generalizing n with
  | nil => simp [numberFrom]
  | cons a as ih =>
      rw [List.cons_append]
      simp only [numberFrom]
      rw [ih (n + 1), List.length_cons, List.cons_append]
      have h2 : n + (as.length + 1) = n + 1 + as.length := by omega
      rw [h2]

theorem map_snd_numberFrom (n : Nat) (l : List α) :
    (numberFrom n l).map Prod.snd = l := by
  induction l generalizing n with
  | nil => rfl
  | cons a as ih => simp [numberFrom, ih]

theorem map_fst_numberFrom (n : Nat) (l : List α) :
    (numberFrom n l).map Prod.fst = List.range' n l.length := by
  induction l generalizing n with
  | nil => rfl
  | cons a as ih => simp [numberFrom, ih, List.range'_succ]

theorem mem_numberFrom {l : List α} {n : Nat} (p : Nat × α) :
    p ∈ numberFrom n l ↔ n ≤ p.1 ∧ l[p.1 - n]? = some p.2 := by
  induction l generalizing n with
  | nil => simp [numberFrom]
  | cons a as ih =>
      obtain ⟨i, r⟩ := p
      simp only [numberFrom, List.mem_cons, ih, Prod.mk.injEq]
      constructor
      · rintro (⟨rfl, rfl⟩ | ⟨hn, hget⟩)
        · simp
        · refine ⟨by omega, ?_⟩
          have : i - n = (i - (n + 1)) + 1 := by omega
          rw [this, List.getElem?_cons_succ]
          exact hget
      · rintro ⟨hn, hget⟩
        rcases Nat.eq_or_lt_of_le hn with rfl | hlt
        · left
          simp at hget
          exact ⟨rfl, hget.symm⟩
        · right
          refine ⟨hlt, ?_⟩
          have : i - n = (i - (n + 1)) + 1 := by omega
          rw [this, List.getElem?_cons_succ] at hget
          exact hget

theorem le_fst_of_mem_numberFrom {l : List α} {n : Nat} {p : Nat × α}
    (h : p ∈ numberFrom n l) : n ≤ p.1 :=
  ((mem_numberFrom p).1 h).1

theorem fst_lt_of_mem_numberFrom {l : List α} {n : Nat} {p : Nat × α}
    (h : p ∈ numberFrom n l) : p.1 < n + l.length := by
  obtain ⟨hn, hget⟩ := (mem_numberFrom p).1 h
  obtain ⟨hlen, _⟩ := List.getElem?_eq_some_iff.1 hget
  omega

theorem pairwise_numberFrom (n : Nat) (l : List α) :
    List.Pairwise (fun p q : Nat × α => p.1 < q.1) (numberFrom n l) := by
  induction l generalizing n with
  | nil => exact List.Pairwise.nil
  | cons a as ih =>
      refine List.Pairwise.cons ?_ (ih (n + 1))
      intro q hq
      have := le_fst_of_mem_numberFrom hq
      omega

theorem commit_records (bs : List (List α)) :
    (commit bs).records = bs.flatten := by
  suffices h : ∀ (bs : List (List α)) (s : LogStore α),
      (bs.foldl appendLogs s).records = s.records ++ bs.flatten by
    simpa using h bs ⟨[]⟩
  intro bs
  induction bs with
  | nil => intro s; simp
  | cons b bs ih =>
      intro s
      simp [List.foldl_cons, ih, appendLogs]

theorem readLogs_zero (s : LogStore α) :
    readLogs 0 s = numberFrom 0 s.records := by
  unfold readLogs
  rw [List.filter_eq_self]
  intro p _
  simp

theorem batchStart_le_succ (bs : List (List α)) (j : Nat) :
    batchStart bs j ≤ batchStart bs (j + 1) := by
  unfold batchStart
  rw [List.take_succ]
  simp

theorem batchStart_mono (bs : List (List α)) {i j : Nat} (h : i ≤ j) :
    batchStart bs i ≤ batchStart bs j := by
  induction j with
  | zero => simp_all
  | succ j ih =>
      rcases Nat.lt_or_ge i (j + 1) with hlt | hge
      · exact Nat.le_trans (ih (by omega)) (batchStart_le_succ bs j)
      · have : i = j + 1 := by omega
        subst this
        exact Nat.le_refl _

theorem batchStart_succ (bs : List (List α)) {i : Nat} (h : i < bs.length) :
    batchStart bs (i + 1) = batchStart bs i + (bs.getD i []).length := by
  unfold batchStart
  rw [List.take_succ, List.getElem?_eq_getElem h, Option.toList_some, List.map_append,
    List.sum_append, List.getD_eq_getElem?_getD, List.getElem?_eq_getElem h]
  simp

/-! ### Lemmas about the snapshot slot -/

theorem foldl_saveSnapshot (l : List Bytes) (s0 : SnapshotStore) :
    l.foldl saveSnapshot s0 = s0 ∨ ∃ b ∈ l, l.foldl saveSnapshot s0 = ⟨some b⟩ := by
  induction l generalizing s0 with
  | nil => left; rfl
  | cons a as ih =>
      rw [List.foldl_cons]
      rcases ih (saveSnapshot s0 a) with h | ⟨b, hb, h⟩
      · right
        exact ⟨a, List.mem_cons_self a as, h⟩
      · right
        exact ⟨b, List.mem_cons_of_mem a hb, h⟩

/-! ### Lemmas about the two lock strategies -/

theorem markerReach_tokens {s : MarkerLockState} (h : MarkerReach s) :
    s.tokens = markerLive s := by
  induction h with
  | init => rfl
  | step hr hs ih =>
      cases hs with
      | acquire p t ht =>
          simp only [markerLive, ht] at ih
          simp [markerLive, ih]
      | release p t ht =>
          simp only [markerLive, ht] at ih
          simp [markerLive, ih]
      | crash p t ht =>
          simp only [markerLive, ht] at ih
          simp [markerLive, ih]
      | reclaim q p t ht =>
          simp only [markerLive, ht] at ih
          simp [markerLive, ih]

theorem markerProgress (s : MarkerLockState) (q : Nat) :
    ∃ t, MarkerSteps s t ∧ q ∈ t.tokens := by
  cases hm : s.marker with
  | none =>
      refine ⟨⟨some (q, .alive), q :: s.tokens⟩, ?_, List.mem_cons_self q _⟩
      exact MarkerSteps.tail (MarkerSteps.refl s) (MarkerStep.acquire q s hm)
  | some pl =>
      obtain ⟨p, liv⟩ := pl
      cases liv with
      | alive =>
          refine ⟨⟨some (q, .alive), q :: (⟨none, s.tokens.erase p⟩ : MarkerLockState).tokens⟩,
            ?_, List.mem_cons_self q _⟩
          exact MarkerSteps.tail
            (MarkerSteps.tail (MarkerSteps.refl s) (MarkerStep.release p s hm))
            (MarkerStep.acquire q ⟨none, s.tokens.erase p⟩ rfl)
      | crashed =>
          refine ⟨⟨some (q, .alive), q :: s.tokens⟩, ?_, List.mem_cons_self q _⟩
          exact MarkerSteps.tail (MarkerSteps.refl s) (MarkerStep.reclaim q p s hm)

theorem openReach_tokens {s : OpenLockState} (h : OpenReach s) :
    s.tokens = openLive s := by
  induction h with
  | init => rfl
  | step hr hs ih =>
      cases hs with
      | acquire p t ht =>
          simp only [openLive, ht] at ih
          simp [openLive, ih]
      | release p t ht =>
          simp only [openLive, ht] at ih
          simp [openLive, ih]
      | crashClose p t ht =>
          simp only [openLive, ht] at ih
          simp [openLive, ih]

theorem openProgress (s : OpenLockState) (q : Nat) :
    ∃ t, OpenSteps s t ∧ q ∈ t.tokens := by
  cases hm : s.handle with
  | none =>
      refine ⟨⟨some q, q :: s.tokens⟩, ?_, List.mem_cons_self q _⟩
      exact OpenSteps.tail (OpenSteps.refl s) (OpenStep.acquire q s hm)
  | some p =>
      refine ⟨⟨some q, q :: (⟨none, s.tokens.erase p⟩ : OpenLockState).tokens⟩,
        ?_, List.mem_cons_self q _⟩
      exact OpenSteps.tail
        (OpenSteps.tail (OpenSteps.refl s) (OpenStep.release p s hm))
        (OpenStep.acquire q ⟨none, s.tokens.erase p⟩ rfl)

/-! ### The claims -/

/-- C1: Total order / no-gap.  For every serialized sequence of
successful `append_logs` batches (the Lock Provider serializes
interleaved calls), `read_logs(0)` afterwards returns every appended
record exactly once, in the exact order the batches were committed, and
the log numbers of the returned records form the contiguous range
starting at 0. -/
theorem C1_total_order_no_gap (α : Type) (bs : List (List α)) :
    (readLogs 0 (commit bs)).map Prod.snd = bs.flatten ∧
    (readLogs 0 (commit bs)).map Prod.fst = List.range bs.flatten.length := by
  rw [readLogs_zero, commit_records]
  refine ⟨map_snd_numberFrom 0 _, ?_⟩
  rw [map_fst_numberFrom, List.range_eq_range']

/-- C2: Atomic batch append.  `append_logs` appends the whole list as
one batch at the end, the records receive the next consecutive log
numbers preserving the list's relative order, and every state a reader
can observe during a run consists of whole batches only: each batch is
either entirely visible or entirely invisible, so no reader ever sees
`j < k` records of a `k`-record batch. -/
theorem C2_atomic_batch_append (α : Type) (s : LogStore α) (logs : List α)
    (bs : List (List α)) :
    (appendLogs s logs).records = s.records ++ logs ∧
    readLogs s.records.length (appendLogs s logs)
      = numberFrom s.records.length logs ∧
    (∀ obs ∈ observable bs, ∃ k, k ≤ bs.length ∧ obs.records = (bs.take k).flatten) ∧
    (∀ obs ∈ observable bs, ∀ i, i < bs.length →
      obs.records.length ≤ batchStart bs i ∨
        batchStart bs i + (bs.getD i []).length ≤ obs.records.length) := by
  refine ⟨rfl, ?_, ?_, ?_⟩
  · simp only [readLogs, appendLogs]
    rw [numberFrom_append, Nat.zero_add, List.filter_append]
    have h1 : (numberFrom 0 s.records).filter
        (fun p => decide (s.records.length ≤ p.1)) = [] := by
      rw [List.filter_eq_nil_iff]
      intro p hp
      have hlt := fst_lt_of_mem_numberFrom hp
      simp only [Nat.zero_add] at hlt
      simp only [decide_eq_true_eq, not_le]
      omega
    have h2 : (numberFrom s.records.length logs).filter
        (fun p => decide (s.records.length ≤ p.1))
        = numberFrom s.records.length logs := by
      rw [List.filter_eq_self]
      intro p hp
      simpa using le_fst_of_mem_numberFrom hp
    rw [h1, h2, List.nil_append]
  · intro obs hobs
    simp only [observable, List.mem_map, List.mem_range] at hobs
    obtain ⟨k, hk, rfl⟩ := hobs
    exact ⟨k, by omega, commit_records _⟩
  · intro obs hobs i hi
    simp only [observable, List.mem_map, List.mem_range] at hobs
    obtain ⟨k, hk, rfl⟩ := hobs
    have hlen : (commit (bs.take k)).records.length = batchStart bs k := by
      rw [commit_records, List.length_flatten]
      rfl
    rcases Nat.lt_or_ge i k with hik | hki
    · right
      rw [hlen]
      calc batchStart bs i + (bs.getD i []).length
          = batchStart bs (i + 1) := (batchStart_succ bs hi).symm
        _ ≤ batchStart bs k := batchStart_mono bs hik
    · left
      rw [hlen]
      exact batchStart_mono bs hki

/-- C2 witness: the batch guarantees evaluated on a concrete two-batch
run. -/
theorem C2_atomic_batch_append_witness :
    commit [[10], [20, 30]] ∈ observable [[10], [20, 30]] ∧
    (∃ k, k ≤ 2 ∧ (commit [[10], [20, 30]] : LogStore Nat).records
      = ([[10], [20, 30]].take k).flatten) := by
  have hmem : commit [[10], [20, 30]] ∈ observable [[10], [20, 30]] := by decide
  have h := (C2_atomic_batch_append Nat ⟨[]⟩ [] [[10], [20, 30]]).2.2.1
    (commit [[10], [20, 30]]) hmem
  simpa using ⟨hmem, h⟩

/-- C3: `read_logs` contract.  `read_logs(log_number_from)` returns
exactly the records whose log number is at least `log_number_from` (a
pair is returned iff it is at that position of the history), in
strictly ascending log-number order; `read_logs(0)` is the entire
numbered history; and when no record qualifies the result is the empty
sequence. -/
theorem C3_read_logs_contract (α : Type) (f : Nat) (s : LogStore α) :
    (∀ p : Nat × α, p ∈ readLogs f s ↔ f ≤ p.1 ∧ s.records[p.1]? = some p.2) ∧
    List.Pairwise (fun p q : Nat × α => p.1 < q.1) (readLogs f s) ∧
    readLogs 0 s = numberFrom 0 s.records ∧
    (∀ j : Nat, readLogs (s.records.length + j) s = []) := by
  refine ⟨?_, ?_, readLogs_zero s, ?_⟩
  · intro p
    unfold readLogs
    rw [List.mem_filter, mem_numberFrom]
    simp only [decide_eq_true_eq, Nat.sub_zero]
    constructor
    · rintro ⟨⟨_, hget⟩, hf⟩
      exact ⟨hf, hget⟩
    · rintro ⟨hf, hget⟩
      exact ⟨⟨Nat.zero_le _, hget⟩, hf⟩
  · exact List.Pairwise.sublist (List.filter_sublist _) (pairwise_numberFrom 0 s.records)
  · intro j
    unfold readLogs
    rw [List.filter_eq_nil_iff]
    intro p hp
    have hlt := fst_lt_of_mem_numberFrom hp
    simp only [Nat.zero_add] at hlt
    simp only [decide_eq_true_eq, not_le]
    omega

/-- C4: Lock mutual exclusion and progress.  Under both the
marker-based and the exclusive-open strategy, every reachable state
carries at most one live Lock Token, and from every state any process
can acquire a token after finitely many steps (no permanent deadlock,
using the staleness-reclaim / auto-close crash-recovery policy). -/
theorem C4_lock_mutual_exclusion_and_progress :
    (∀ s : MarkerLockState, MarkerReach s →
      s.tokens.length ≤ 1 ∧ ∀ q : Nat, ∃ t, MarkerSteps s t ∧ q ∈ t.tokens) ∧
    (∀ s : OpenLockState, OpenReach s →
      s.tokens.length ≤ 1 ∧ ∀ q : Nat, ∃ t, OpenSteps s t ∧ q ∈ t.tokens) := by
  constructor
  · intro s hs
    refine ⟨?_, markerProgress s⟩
    rw [markerReach_tokens hs]
    cases hm : s.marker with
    | none => simp [markerLive, hm]
    | some pl =>
        obtain ⟨p, liv⟩ := pl
        cases liv <;> simp [markerLive, hm]
  · intro s hs
    refine ⟨?_, openProgress s⟩
    rw [openReach_tokens hs]
    cases hm : s.handle with
    | none => simp [openLive, hm]
    | some p => simp [openLive, hm]

/-- C4 witness: both guarantees evaluated at the initial states, which
are reachable by construction. -/
theorem C4_lock_mutual_exclusion_and_progress_witness :
    (⟨none, []⟩ : MarkerLockState).tokens.length ≤ 1 ∧
    (⟨none, []⟩ : OpenLockState).tokens.length ≤ 1 :=
  ⟨(C4_lock_mutual_exclusion_and_progress.1 _ MarkerReach.init).1,
   (C4_lock_mutual_exclusion_and_progress.2 _ OpenReach.init).1⟩

/-- C5: `load_snapshot` invocation count.  When a snapshot is stored,
the loader is invoked exactly once, with exactly the stored bytes; when
no snapshot is stored, `load_snapshot` completes normally without ever
invoking the loader. -/
theorem C5_load_snapshot_invocation_count (σ : Type) (st : SnapshotStore)
    (loader : Bytes → Except PyError σ) :
    (∀ b : Bytes, st.snapshot = some b → (loadSnapshot st loader).2 = [b]) ∧
    (st.snapshot = none → loadSnapshot st loader = (none, [])) := by
  constructor
  · intro b hb
    simp only [loadSnapshot, hb]
    cases hl : loader b <;> simp
  · intro hb
    simp only [loadSnapshot, hb]

/-- C5 witness: a stored one-byte snapshot is handed to the loader
exactly once; an empty slot never invokes it. -/
theorem C5_load_snapshot_invocation_count_witness :
    (loadSnapshot ⟨some [1]⟩ (fun _ => (Except.ok 0 : Except PyError Nat))).2 = [[1]] ∧
    loadSnapshot (⟨none⟩ : SnapshotStore)
      (fun _ => (Except.ok 0 : Except PyError Nat)) = (none, []) :=
  ⟨(C5_load_snapshot_invocation_count Nat ⟨some [1]⟩ _).1 [1] rfl,
   (C5_load_snapshot_invocation_count Nat ⟨none⟩ _).2 rfl⟩

/-- C6: `SnapshotRestoreError` absorption.  When the loader fails on
the stored bytes, `load_snapshot` yields "no usable snapshot" — its
result carries no error at all and coincides with the result for an
absent snapshot, so the store never propagates the failure as its own
fatal error. -/
theorem C6_restore_error_absorbed (σ : Type) (st : SnapshotStore)
    (loader : Bytes → Except PyError σ) (b : Bytes) (e : PyError)
    (hb : st.snapshot = some b) (he : loader b = .error e) :
    (loadSnapshot st loader).1 = none ∧
    (loadSnapshot st loader).1 = (loadSnapshot (⟨none⟩ : SnapshotStore) loader).1 := by
  simp only [loadSnapshot, hb, he]
  exact ⟨trivial, trivial⟩

/-- C6 witness: a loader raising `SnapshotRestoreError` on the stored
blob is absorbed into "no usable snapshot". -/
theorem C6_restore_error_absorbed_witness :
    (loadSnapshot ⟨some [0]⟩
      (fun _ => (Except.error .snapshotRestoreError : Except PyError Nat))).1 = none :=
  (C6_restore_error_absorbed Nat ⟨some [0]⟩ _ [0] .snapshotRestoreError rfl rfl).1

/-- C7: Atomic snapshot replacement.  `save_snapshot` replaces the
single stored blob as a whole, and every slot state observable during a
run of saves is either absent or one of the fully written saved blobs —
never a half-written one. -/
theorem C7_atomic_snapshot_replacement (saves : List Bytes) :
    (∀ (st : SnapshotStore) (b : Bytes), saveSnapshot st b = ⟨some b⟩) ∧
    (∀ st ∈ observableSnapshots saves,
      st.snapshot = none ∨ ∃ b ∈ saves, st.snapshot = some b) := by
  refine ⟨fun st b => rfl, ?_⟩
  intro st hst
  simp only [observableSnapshots, List.mem_map, List.mem_range] at hst
  obtain ⟨k, hk, rfl⟩ := hst
  rcases foldl_saveSnapshot (saves.take k) ⟨none⟩ with h | ⟨b, hb, h⟩
  · left
    unfold snapshotRun
    rw [h]
  · right
    refine ⟨b, List.take_subset k saves hb, ?_⟩
    unfold snapshotRun
    rw [h]

/-- C7 witness: the observable slot states of a concrete two-save run
hold nothing but whole saved blobs. -/
theorem C7_atomic_snapshot_replacement_witness :
    snapshotRun [[1], [2]] ∈ observableSnapshots [[1], [2]] ∧
    ((snapshotRun [[1], [2]]).snapshot = none ∨
      ∃ b ∈ [[1], [2]], (snapshotRun [[1], [2]]).snapshot = some b) := by
  have hmem : snapshotRun [[1], [2]] ∈ observableSnapshots [[1], [2]] := by decide
  exact ⟨hmem, (C7_atomic_snapshot_replacement [[1], [2]]).2 _ hmem⟩

/-- C8: Snapshot fallback equivalence.  For every log history, a cold
start whose loader raises on the stored (corrupted) blob reconstructs
exactly the state of a cold start with no snapshot at all, namely the
full replay of `read_logs(0)`. -/
theorem C8_snapshot_fallback_equivalence (σ α : Type) (apply : σ → α → σ)
    (init : σ) (log : LogStore α) (snap : SnapshotStore)
    (loader : Bytes → Except PyError (σ × Nat)) (b : Bytes) (e : PyError)
    (hb : snap.snapshot = some b) (he : loader b = .error e) :
    reconstruct apply init log snap loader
      = reconstruct apply init log ⟨none⟩ loader ∧
    reconstruct apply init log ⟨none⟩ loader
      = replay apply init (readLogs 0 log) := by
  simp only [reconstruct, loadSnapshot, hb, he]
  exact ⟨trivial, trivial⟩

/-- C8 witness: a corrupted snapshot over a concrete two-record history
reconstructs the same sum as the snapshot-free full replay. -/
theorem C8_snapshot_fallback_equivalence_witness :
    reconstruct (fun st r => st + r) 0 (⟨[5, 6]⟩ : LogStore Nat) ⟨some [9]⟩
        (fun _ => (Except.error .snapshotRestoreError : Except PyError (Nat × Nat)))
      = reconstruct (fun st r => st + r) 0 (⟨[5, 6]⟩ : LogStore Nat) ⟨none⟩
        (fun _ => (Except.error .snapshotRestoreError : Except PyError (Nat × Nat))) :=
  (C8_snapshot_fallback_equivalence Nat Nat _ 0 ⟨[5, 6]⟩ ⟨some [9]⟩ _
    [9] .snapshotRestoreError rfl rfl).1

/-- C9: `snapshot_interval` configuration.  For every positive integer
`n`, running `BaseJournalLogSnapshot.__init__` with `n` succeeds and
stores exactly `n` in the `snapshot_interval` attribute (the source
performs no validation, so construction never fails). -/
theorem C9_snapshot_interval_configuration (n : Int) (h : 0 < n) :
    (BaseJournalLogSnapshot.mk n).snapshot_interval = n :=
  rfl

/-- C9 witness: interval 10 is stored verbatim. -/
theorem C9_snapshot_interval_configuration_witness :
    (0 : Int) < 10 ∧ (BaseJournalLogSnapshot.mk 10).snapshot_interval = 10 :=
  ⟨by decide, C9_snapshot_interval_configuration 10 (by decide)⟩

/-- C10: Abstract-base behaviour.  Each of the four abstract methods of
the public interface, invoked directly on the base class, raises
`NotImplementedError` for every input: the base classes alone never
perform any log or snapshot operation. -/
theorem C10_abstract_methods_raise (α σ : Type) (n : Int) (logs : List α)
    (self : BaseJournalLogSnapshot) (b : Bytes)
    (loader : Bytes → Except PyError σ) :
    BaseJournalLogStorage.read_logs α n = .error .notImplementedError ∧
    BaseJournalLogStorage.append_logs α logs = .error .notImplementedError ∧
    self.save_snapshot b = .error .notImplementedError ∧
    self.load_snapshot σ loader = .error .notImplementedError :=
  ⟨rfl, rfl, rfl, rfl⟩

end OptunaJournal
